import Mathlib

/-!
# Shallow embedding of the oclapi versioned-resource persistence protocol

This file embeds the core data model and operations of the repository
(`oclapi/models.py`, `sources/models.py`, and — where only tests exist under
`src/` — spec-modelled concept operations) and proves the frozen claims
about them.

Storage is modelled as explicit state: a `DB` record holding the resource
collection and the version collection, with fresh record ids handed out by a
counter and creation order recorded by a logical clock.  A Django `save()`
that may fail is modelled by a boolean failure flag supplied to the
operation; validation (`full_clean`) is a parameter returning a field-error
map, mirroring Django's `ValidationError.message_dict`.
-/

set_option autoImplicit false

namespace OclApi

/-- Field-error maps (`errors` dicts in the Python source): an association
list from field name to message. -/
abbrev Errors := List (String × String)

/-- The keys present in an error map. -/
def errKeys (e : Errors) : List String := e.map Prod.fst

/-- `Source` (a `ConceptContainerModel` / `SubResourceBaseModel`): the
mutable container resource.  `owner` and `parent` are the foreign keys
assigned by `persist_new`; `none` models a null reference. -/
structure SourceR where
  id : Nat
  mnemonic : String
  name : String
  full_name : Option String
  source_type : String
  public_access : String
  default_locale : String
  supported_locales : List String
  website : Option String
  description : Option String
  owner : Option Nat
  parent : Option Nat
  is_active : Bool
deriving DecidableEq, Repr

/-- `SourceVersion` (a `ConceptContainerVersionModel` / `ResourceVersionModel`):
one immutable snapshot of a `Source`.  `previous_version` and
`parent_version` hold the record ids of the linked versions (nullable
foreign keys), `concepts` is the member index of concept-version ids. -/
structure SourceVersionR where
  id : Nat
  mnemonic : String
  versioned_object_id : Nat
  released : Bool
  is_active : Bool
  created_at : Nat
  previous_version : Option Nat
  parent_version : Option Nat
  name : String
  full_name : Option String
  source_type : String
  public_access : String
  default_locale : String
  supported_locales : List String
  website : Option String
  description : Option String
  concepts : List Nat
deriving DecidableEq, Repr

/-- The storage state: the `Source` collection and the `SourceVersion`
collection, plus the id counter and the creation clock. -/
structure DB where
  sources : List SourceR
  versions : List SourceVersionR
  nextId : Nat
  clock : Nat
deriving DecidableEq, Repr

/-- Well-formedness of the storage state: every stored id is below the id
counter, every recorded creation time is below the clock, and record ids are
pairwise distinct. -/
def DB.WF (db : DB) : Prop :=
  (∀ v ∈ db.versions, v.id < db.nextId ∧ v.created_at < db.clock) ∧
  (∀ s ∈ db.sources, s.id < db.nextId) ∧
  (db.versions.map (·.id)).Nodup ∧ (db.sources.map (·.id)).Nodup

instance (db : DB) : Decidable db.WF := by
  unfold DB.WF; infer_instance

/-- `save()` on an unsaved `Source`: insert, assigning a fresh record id. -/
def DB.saveNewSource (db : DB) (s : SourceR) : SourceR × DB :=
  let s' := { s with id := db.nextId }
  (s', { db with sources := db.sources ++ [s'], nextId := db.nextId + 1,
                 clock := db.clock + 1 })

/-- `save()` on an unsaved `SourceVersion`: insert, assigning a fresh record
id and the current creation time. -/
def DB.saveNewVersion (db : DB) (v : SourceVersionR) : SourceVersionR × DB :=
  let v' := { v with id := db.nextId, created_at := db.clock }
  (v', { db with versions := db.versions ++ [v'], nextId := db.nextId + 1,
                 clock := db.clock + 1 })

/-- `save()` on an already-saved `SourceVersion`: update in place by id. -/
def DB.saveExistingVersion (db : DB) (v : SourceVersionR) : DB :=
  { db with versions := db.versions.map (fun w => if w.id == v.id then v else w) }

/-- `save()` on a `SourceVersion` that may or may not be saved yet: update
if the record id is present, insert otherwise (the second component of the
result is the object as stored). -/
def DB.saveVersion (db : DB) (v : SourceVersionR) : SourceVersionR × DB :=
  if db.versions.any (fun w => w.id == v.id) then (v, db.saveExistingVersion v)
  else db.saveNewVersion v

/-- `delete()` on a `SourceVersion` record. -/
def DB.deleteVersion (db : DB) (i : Nat) : DB :=
  { db with versions := db.versions.filter (fun w => w.id != i) }

/-- `delete()` on a `Source` record. -/
def DB.deleteSource (db : DB) (i : Nat) : DB :=
  { db with sources := db.sources.filter (fun w => w.id != i) }

/-! ## `order_by('-created_at')` + take-first

Both `get_latest_version_of` overloads filter the version collection and
take the head of the result ordered by descending creation time; `latestBy`
computes that head (the entry with the greatest key). -/

/-- The element of `l` with the greatest `key`, i.e. the head of `l` sorted
by descending `key` (earlier entries win ties); `none` on the empty list. -/
def latestBy {α : Type} (key : α → Nat) (l : List α) : Option α :=
  l.foldl
    (fun acc v =>
      match acc with
      | none => some v
      | some a => if key a < key v then some v else some a)
    none

/-! ## `get_latest_version_of` (oclapi/models.py)

`ResourceVersionModel.get_latest_version_of` filters the version collection
by `versioned_object_id` and `is_active=True` and takes the head ordered by
descending `created_at`; the `ConceptContainerVersionModel` override filters
by `released=True` instead. -/

/-- `ResourceVersionModel.get_latest_version_of` (plain resources):
most-recently-created version of `oid` with `is_active = true`. -/
def ResourceVersionModel.get_latest_version_of (db : DB) (oid : Nat) :
    Option SourceVersionR :=
  latestBy (·.created_at)
    (db.versions.filter (fun v => v.versioned_object_id == oid && v.is_active))

/-- `ConceptContainerVersionModel.get_latest_version_of` (containers):
most-recently-created version of `oid` with `released = true`. -/
def ConceptContainerVersionModel.get_latest_version_of (db : DB) (oid : Nat) :
    Option SourceVersionR :=
  latestBy (·.created_at)
    (db.versions.filter (fun v => v.versioned_object_id == oid && v.released))

/-! ## `SourceVersion.for_base_object` (sources/models.py)

Builds an unsaved `SourceVersion` snapshotting the source's current field
values.  (The Python function also raises if `source` is not a saved
`Source`; in this embedding types are static and sources carry an id.) -/

/-- `SourceVersion.for_base_object(source, label, previous_version,
parent_version, released)`: an unsaved version snapshot of `source`. -/
def SourceVersion.for_base_object (source : SourceR) (label : String)
    (previous_version : Option Nat := none) (parent_version : Option Nat := none)
    (released : Bool := false) : SourceVersionR :=
  { id := 0
    mnemonic := label
    name := source.name
    full_name := source.full_name
    source_type := source.source_type
    public_access := source.public_access
    default_locale := source.default_locale
    supported_locales := source.supported_locales
    website := source.website
    description := source.description
    versioned_object_id := source.id
    released := released
    previous_version := previous_version
    parent_version := parent_version
    is_active := true
    created_at := 0
    concepts := [] }

/-! ## `ConceptContainerModel.persist_new` (oclapi/models.py:186-224)

`full_clean` is modelled by the parameter `clean`; the three fallible
`save()` calls in the `try` block (`obj.save`, the first `version.save`, the
second `version.save`) are modelled by the three failure flags.  The
`finally` block's compensation (`version.delete()` when a version object
exists, then `obj.delete()`) runs on every failed path, exactly as in the
source. -/

/-- `ConceptContainerModel.persist_new(obj, owner=…, parent_resource=…)`:
validate, save the resource, then create and twice save the initial version,
rolling everything back on failure.  Returns the error map and the final
storage state. -/
def ConceptContainerModel.persist_new (clean : SourceR → Errors)
    (failObjSave failVersionSave1 failVersionSave2 : Bool)
    (obj : SourceR) (owner parent_resource : Option Nat) (db : DB) :
    Errors × DB :=
  let errors : Errors :=
    (if parent_resource.isNone then [("parent", "Source parent cannot be None.")] else []) ++
    (if owner.isNone then [("owner", "Source owner cannot be None.")] else [])
  if errors ≠ [] then (errors, db)
  else
    let obj := { obj with parent := parent_resource, owner := owner }
    let errors := clean obj
    if errors ≠ [] then (errors, db)
    else
      -- try: obj.save(); version = for_base_object(obj, 'INITIAL');
      --      version.released = True; version.save();
      --      version.mnemonic = version.id; version.save()
      -- finally (not persisted): errors['non_field_errors'] = …;
      --      if version: version.delete(); obj.delete()
      if failObjSave then
        -- obj was never saved: the deletes find nothing to remove
        ([("non_field_errors", "An error occurred while trying to persist new Source.")],
         db)
      else
        let (obj', db1) := db.saveNewSource obj
        let version := { SourceVersion.for_base_object obj' "INITIAL" with released := true }
        if failVersionSave1 then
          -- version constructed but never saved: its delete() finds no
          -- stored record, so only obj' is removed
          ([("non_field_errors", "An error occurred while trying to persist new Source.")],
           db1.deleteSource obj'.id)
        else
          let (v1, db2) := db1.saveNewVersion version
          let v2 := { v1 with mnemonic := toString v1.id }
          if failVersionSave2 then
            -- second save failed: delete the saved version, then obj'
            ([("non_field_errors", "An error occurred while trying to persist new Source.")],
             (db2.deleteVersion v1.id).deleteSource obj'.id)
          else
            ([], db2.saveExistingVersion v2)

/-! ## `SourceVersion.update_concept_version` (sources/models.py:45-51) -/

/-- `SourceVersion.update_concept_version(concept_version)` acting on the
member list `concepts`: `prev` is `concept_version.previous_version`'s id
(`none` when the link is null), `cid` is `concept_version.id`. -/
def SourceVersion.update_concept_version (concepts : List Nat)
    (prev : Option Nat) (cid : Nat) : List Nat :=
  match prev with
  | some p =>
      if p ∈ concepts then concepts.set (concepts.indexOf p) cid
      else concepts ++ [cid]
  | none => concepts ++ [cid]

/-! ## `SourceVersion.seed_concepts` (sources/models.py:53-56) -/

/-- `SourceVersion.seed_concepts()`: copy the member list from
`previous_version or parent_version`, resolved in `db`; leave the list
unchanged when both links are null (or the link dangles). -/
def SourceVersion.seed_concepts (db : DB) (obj : SourceVersionR) : SourceVersionR :=
  match obj.previous_version.or obj.parent_version with
  | some pid =>
      match db.versions.find? (fun v => v.id == pid) with
      | some src => { obj with concepts := src.concepts }
      | none => obj
  | none => obj

/-! ## `ConceptContainerVersionModel.persist_changes` (oclapi/models.py:272-343)

Keyword arguments and the transient underscore attributes of the object
being persisted are passed explicitly.  The one fallible `save()` modelled
is `obj.save(**kwargs)` inside the `try` block (flag `failSave`); the
compensating saves on `previous_release` are assumed to succeed, as the
claims do.  `cls.objects.get(...)` raises when it does not find exactly one
match; an uncaught exception is modelled by the result `none`. -/

/-- The keyword arguments consumed by `persist_changes`:
`versioned_object` is the effective versioned-object id after the
`kwargs.pop('versioned_object', obj.versioned_object)` default (`none`
models a null versioned object), `mnemonic` is the optional new version
label, `seed` is `kwargs['seed_concepts']`. -/
structure PCKw where
  versioned_object : Option Nat
  mnemonic : Option String
  seed : Bool
deriving DecidableEq, Repr

/-- The transient attributes of the object being persisted:
`previous_version_mnemonic` models `obj._previous_version_mnemonic`
(`none`: attribute absent or falsy), likewise `parent_version_mnemonic`;
`was_released` models `obj._was_released` (`none`: attribute absent). -/
structure PCTransient where
  previous_version_mnemonic : Option String
  parent_version_mnemonic : Option String
  was_released : Option Bool
deriving DecidableEq, Repr

/-- `ConceptContainerVersionModel.persist_changes(obj, **kwargs)`: validate
the version identity and links, optionally seed the member list, swap the
released flag, and save — undoing the swap if the save fails.  Returns
`none` on an uncaught storage exception (`objects.get` finding no or many
released versions), otherwise the error map and final state. -/
def ConceptContainerVersionModel.persist_changes (failSave : Bool)
    (kw : PCKw) (tr : PCTransient) (obj : SourceVersionR) (db : DB) :
    Option (Errors × DB) :=
  -- Ensure versioned object specified
  match kw.versioned_object with
  | none => some ([("non_field_errors", "Must specify a versioned object.")], db)
  | some vo =>
    let obj := { obj with versioned_object_id := vo }
    -- Ensure mnemonic does not conflict with existing
    let old_mnemonic := obj.mnemonic
    let mnemonic := kw.mnemonic.getD obj.mnemonic
    if mnemonic ≠ old_mnemonic ∧
        db.versions.any (fun v => v.versioned_object_id == vo && v.mnemonic == obj.mnemonic)
    then
      -- note: the filter uses obj.mnemonic, i.e. the OLD mnemonic, as in the source
      some ([("mnemonic", "Version with mnemonic " ++ obj.mnemonic ++ " already exists.")], db)
    else
      let obj := { obj with mnemonic := mnemonic }
      -- Ensure previous version is valid
      let prevStep : Errors × SourceVersionR :=
        match tr.previous_version_mnemonic with
        | none => ([], obj)
        | some pm =>
          match db.versions.filter
              (fun v => v.versioned_object_id == vo && v.mnemonic == pm) with
          | [] => ([("previousVersion", "Previous version " ++ pm ++ " does not exist.")], obj)
          | q :: _ =>
            if obj.mnemonic == pm then
              ([("previousVersion", "Previous version cannot be the same as current version.")], obj)
            else ([], { obj with previous_version := some q.id })
      let errs1 := prevStep.1
      let obj := prevStep.2
      -- Ensure parent version is valid
      let parStep : Errors × SourceVersionR :=
        match tr.parent_version_mnemonic with
        | none => ([], obj)
        | some pm =>
          match db.versions.filter
              (fun v => v.versioned_object_id == vo && v.mnemonic == pm) with
          | [] => ([("parentVersion", "Parent version " ++ pm ++ " does not exist.")], obj)
          | q :: _ =>
            if obj.mnemonic == pm then
              ([("parentVersion", "Parent version cannot be the same as current version.")], obj)
            else ([], { obj with parent_version := some q.id })
      let errs2 := parStep.1
      let obj := parStep.2
      -- If there are errors at this point, fall out before doing any more work
      if errs1 ++ errs2 ≠ [] then some (errs1 ++ errs2, db)
      else
        -- Seed concepts from another version, if requested
        let obj := if kw.seed then SourceVersion.seed_concepts db obj else obj
        -- See if we need to toggle the released flag
        let releaseStep : Option (Option SourceVersionR) :=
          match tr.was_released with
          | none => some none
          | some w =>
            if obj.released && !w then
              match db.versions.filter
                  (fun v => v.versioned_object_id == vo && v.released) with
              | [pr] => some (some pr)
              | _ => none  -- objects.get: DoesNotExist / MultipleObjectsReturned
            else some none
        match releaseStep with
        | none => none
        | some previous_release =>
          let db1 :=
            match previous_release with
            | some pr => db.saveExistingVersion { pr with released := false }
            | none => db
          if failSave then
            -- finally: restore the previous release, report a non-field error
            let db2 :=
              match previous_release with
              | some pr => db1.saveExistingVersion { pr with released := true }
              | none => db1
            some ([("non_field_errors", "Encountered an error while updating version.")], db2)
          else
            some ([], (db1.saveVersion obj).2)

/-! ## Concept layer (spec-modelled)

`concepts/models.py` is not under `src/`: only its tests
(`concepts/tests.py`) and its serializers are.  The definitions below are
therefore modelled from the spec (and checked against the expectations in
`concepts/tests.py`), not translated from source code. -/

/-- `LocalizedText` (concepts/models.py, absent from src/): text, locale
code and the preferred-in-locale flag. -/
structure LocalizedText where
  name : String
  locale : String
  locale_preferred : Bool
deriving DecidableEq, Repr

/-- Modelled from the spec: display resolution over an ordered list of
localized texts (`Concept.display_name` / `display_locale`,
concepts/models.py is not under src/).  Spec 4.5: "the first entry flagged
preferred-in-its-locale if one exists, else the first entry in list order;
absence of any entries yields an absent display name/locale". -/
def Concept.display (names : List LocalizedText) : Option LocalizedText :=
  match names.find? (·.locale_preferred) with
  | some lt => some lt
  | none => names.head?

/-- Modelled from the spec: `Concept.display_name` (concepts/models.py is
not under src/): the text of the display entry, absent for no entries. -/
def Concept.display_name (names : List LocalizedText) : Option String :=
  (Concept.display names).map (·.name)

/-- Modelled from the spec: `Concept.display_locale` (concepts/models.py is
not under src/): the locale of the display entry, absent for no entries. -/
def Concept.display_locale (names : List LocalizedText) : Option String :=
  (Concept.display names).map (·.locale)

/-- A stored `ConceptVersion` record (snapshot of a Concept, carrying the
retired flag), for the spec-modelled concept lifecycle. -/
structure ConceptVersionRec where
  id : Nat
  versioned_object_id : Nat
  retired : Bool
  is_active : Bool
  created_at : Nat
deriving DecidableEq, Repr

/-- The mutable `Concept` resource, reduced to the fields the retire
protocol touches. -/
structure ConceptRec where
  id : Nat
  retired : Bool
deriving DecidableEq, Repr

/-- The concept-version collection with id counter and creation clock. -/
structure CDB where
  versions : List ConceptVersionRec
  nextId : Nat
  clock : Nat
deriving DecidableEq, Repr

/-- Well-formedness of the concept-version store. -/
def CDB.WF (db : CDB) : Prop :=
  ∀ v ∈ db.versions, v.id < db.nextId ∧ v.created_at < db.clock

instance (db : CDB) : Decidable db.WF := by
  unfold CDB.WF; infer_instance

/-- `num_versions`: the count of version records for a resource
(oclapi/models.py, `ConceptContainerModel.num_versions`; same shape for
concepts). -/
def Concept.num_versions (db : CDB) (c : ConceptRec) : Nat :=
  (db.versions.filter (fun v => v.versioned_object_id == c.id)).length

/-- `ConceptVersion.get_latest_version_of` (the plain
`ResourceVersionModel` overload): most-recently-created version with
`is_active = true`. -/
def ConceptVersion.get_latest_version_of (db : CDB) (oid : Nat) :
    Option ConceptVersionRec :=
  latestBy (·.created_at)
    (db.versions.filter (fun v => v.versioned_object_id == oid && v.is_active))

/-- Modelled from the spec: `Concept.retire` (concepts/models.py is not
under src/).  Spec 4.2: "no-op returning failure if already retired.
Otherwise: set retired = true on the resource, persist a new version
snapshot of it (incrementing the version count), and return success."
Returns (success flag, updated resource, updated store). -/
def Concept.retire (c : ConceptRec) (db : CDB) : Bool × ConceptRec × CDB :=
  if c.retired then (false, c, db)
  else
    let c' := { c with retired := true }
    let v : ConceptVersionRec :=
      { id := db.nextId, versioned_object_id := c.id, retired := true,
        is_active := true, created_at := db.clock }
    (true, c',
      { versions := db.versions ++ [v], nextId := db.nextId + 1,
        clock := db.clock + 1 })

/-! ## Concrete example records, used to instantiate witnesses -/

/-- A concrete `SourceVersion` record builder for examples. -/
def exVer (i : Nat) (mn : String) (oid : Nat) (rel act : Bool) (t : Nat)
    (cs : List Nat) : SourceVersionR :=
  { id := i, mnemonic := mn, versioned_object_id := oid, released := rel,
    is_active := act, created_at := t, previous_version := none,
    parent_version := none, name := "source1", full_name := none,
    source_type := "dictionary", public_access := "View",
    default_locale := "en", supported_locales := ["en"], website := none,
    description := none, concepts := cs }

/-- A concrete unsaved `Source` for examples. -/
def exSrc : SourceR :=
  { id := 0, mnemonic := "source1", name := "source1",
    full_name := some "Source One", source_type := "dictionary",
    public_access := "Edit", default_locale := "en",
    supported_locales := ["en"], website := some "www.source1.com",
    description := some "first", owner := none, parent := none,
    is_active := true }

/-- Example list of localized names from the spec (4.5 / 8). -/
def exNames : List LocalizedText :=
  [{ name := "A", locale := "en", locale_preferred := false },
   { name := "B", locale := "fr", locale_preferred := true }]

/-- Example store for `get_latest_version_of`: object 1 has an earlier
released version and a later unreleased one. -/
def exDB2 : DB :=
  { sources := [], nextId := 20, clock := 20,
    versions := [exVer 10 "v1" 1 true true 1 [], exVer 11 "v2" 1 false true 2 []] }

/-- The empty store. -/
def exDB0 : DB := { sources := [], versions := [], nextId := 0, clock := 0 }

/-- Example store for seeding: the ancestor version 1 holds concepts
[5, 6]. -/
def exDB5 : DB :=
  { sources := [], nextId := 20, clock := 20,
    versions := [exVer 1 "a" 1 false true 1 [5, 6], exVer 2 "b" 1 false true 2 []] }

/-- An unsaved version of object 1 whose previous-version link points at
version 1 of `exDB5`. -/
def exObj5 : SourceVersionR :=
  { exVer 3 "c" 1 false true 3 [] with previous_version := some 1 }

/-- Example store for the released-flag swap: object 1 has exactly one
released version, id 10. -/
def exDB3 : DB :=
  { sources := [], nextId := 20, clock := 20,
    versions := [exVer 10 "v1" 1 true true 1 []] }

/-- The prior released version in `exDB3`. -/
def exPr3 : SourceVersionR := exVer 10 "v1" 1 true true 1 []

/-- An unsaved new version of object 1 with `released = true` about to be
persisted over `exDB3`. -/
def exObj3 : SourceVersionR := exVer 30 "v2" 1 true true 0 []

/-- Example store for the mnemonic-conflict check: object 42 already has
versions "v1" and "v2". -/
def exDB7 : DB :=
  { sources := [], nextId := 20, clock := 20,
    versions := [exVer 10 "v1" 42 false true 1 [],
                 exVer 11 "v2" 42 false true 2 []] }

/-- Example concept store for retire: object 5 has one unretired version. -/
def exCDB8 : CDB :=
  { versions := [{ id := 0, versioned_object_id := 5, retired := false,
                   is_active := true, created_at := 0 }],
    nextId := 10, clock := 10 }

/-! ## Theorems -/

theorem latestBy_aux {α : Type} (key : α → Nat) (l : List α) :
    ∀ (acc : Option α) (r : α),
      (l.foldl
        (fun acc v =>
          match acc with
          | none => some v
          | some a => if key a < key v then some v else some a)
        acc) = some r →
      (acc = some r ∨ r ∈ l) ∧ (∀ x ∈ l, key x ≤ key r) ∧
        (∀ a, acc = some a → key a ≤ key r) := by
  induction l with
  | nil =>
    intro acc r h
    simp only [List.foldl_nil] at h
    refine ⟨Or.inl h, by simp, ?_⟩
    intro a ha
    rw [ha] at h
    cases h
    exact le_refl _
  | cons v t ih =>
    intro acc r h
    simp only [List.foldl_cons] at h
    match hacc : acc with
    | none =>
      rcases ih (some v) r h with ⟨hmem, hmax, hacc'⟩
      refine ⟨Or.inr ?_, ?_, ?_⟩
      · rcases hmem with h' | h'
        · cases h'; exact List.mem_cons_self _ _
        · exact List.mem_cons_of_mem _ h'
      · intro x hx
        rcases List.mem_cons.1 hx with rfl | hx'
        · exact hacc' x rfl
        · exact hmax x hx'
      · intro a ha; cases ha
    | some a =>
      by_cases hlt : key a < key v
      · simp only [if_pos hlt] at h
        rcases ih (some v) r h with ⟨hmem, hmax, hacc'⟩
        refine ⟨Or.inr ?_, ?_, ?_⟩
        · rcases hmem with h' | h'
          · cases h'; exact List.mem_cons_self _ _
          · exact List.mem_cons_of_mem _ h'
        · intro x hx
          rcases List.mem_cons.1 hx with rfl | hx'
          · exact hacc' x rfl
          · exact hmax x hx'
        · intro b hb
          cases hb
          exact le_trans (le_of_lt hlt) (hacc' v rfl)
      · simp only [if_neg hlt] at h
        rcases ih (some a) r h with ⟨hmem, hmax, hacc'⟩
        refine ⟨?_, ?_, ?_⟩
        · rcases hmem with h' | h'
          · exact Or.inl h'
          · exact Or.inr (List.mem_cons_of_mem _ h')
        · intro x hx
          rcases List.mem_cons.1 hx with rfl | hx'
          · exact le_trans (le_of_not_lt hlt) (hacc' a rfl)
          · exact hmax x hx'
        · intro b hb; exact hacc' b hb

theorem latestBy_spec {α : Type} (key : α → Nat) (l : List α) (r : α)
    (h : latestBy key l = some r) : r ∈ l ∧ ∀ x ∈ l, key x ≤ key r := by
  rcases latestBy_aux key l none r h with ⟨hmem, hmax, _⟩
  refine ⟨?_, hmax⟩
  rcases hmem with h' | h'
  · cases h'
  · exact h'

theorem latestBy_isSome {α : Type} (key : α → Nat) (l : List α) (hl : l ≠ []) :
    (latestBy key l).isSome := by
  match l with
  | [] => exact absurd rfl hl
  | v :: t =>
    unfold latestBy
    simp only [List.foldl_cons]
    clear hl
    induction t generalizing v with
    | nil => simp
    | cons w t ih =>
      simp only [List.foldl_cons]
      by_cases hlt : key v < key w
      · simpa only [if_pos hlt] using ih w
      · simpa only [if_neg hlt] using ih v

/-- Replacing the entry matching `f` by itself: if `f` fixes every element
of `l`, mapping it is the identity. -/
theorem map_eq_self_of {α : Type} (l : List α) (f : α → α)
    (h : ∀ x ∈ l, f x = x) : l.map f = l := by
  induction l with
  | nil => rfl
  | cons a t ih =>
    simp only [List.map_cons]
    rw [h a (List.mem_cons_self a t),
        ih (fun x hx => h x (List.mem_cons_of_mem a hx))]

/-- Compensating delete: filtering a freshly appended record back out of a
collection whose records all survive the filter restores the collection. -/
theorem filter_append_fresh {α : Type} (p : α → Bool) (l : List α) (x : α)
    (hpl : ∀ y ∈ l, p y = true) (hpx : p x = false) :
    (l ++ [x]).filter p = l := by
  rw [List.filter_append, List.filter_eq_self.mpr hpl]
  simp [List.filter_cons, hpx]

/-- `find?` returns the entry at position `i` when it satisfies `p` and no
earlier entry does. -/
theorem find?_of_first {α : Type} (p : α → Bool) (l : List α) (i : Nat)
    (hi : i < l.length) (hp : p l[i] = true)
    (hfirst : ∀ x ∈ l.take i, p x = false) :
    l.find? p = some l[i] := by
  induction l generalizing i with
  | nil => simp at hi
  | cons a t ih =>
    match i with
    | 0 =>
      simp only [List.getElem_cons_zero] at hp ⊢
      simp [List.find?_cons, hp]
    | i + 1 =>
      have ha : p a = false := hfirst a (by simp [List.take_succ_cons])
      simp only [List.find?_cons, ha, cond_false]
      simp only [List.getElem_cons_succ] at hp ⊢
      exact ih i (by simpa using hi) hp
        (fun x hx => hfirst x (by simp [List.take_succ_cons]; exact Or.inr hx))

/-- C4: for every container version and concept version, if the concept
version's `previous_version` is non-null and its id occurs in the member
list, `update_concept_version` replaces the (first) occurrence with the new
id at the same index, leaving the length and all other entries unchanged;
otherwise it appends the new id at the end. -/
theorem update_concept_version_replace_or_append (l : List Nat)
    (prev : Option Nat) (cid : Nat) :
    (∀ p, prev = some p → p ∈ l →
      (SourceVersion.update_concept_version l prev cid).length = l.length ∧
      (SourceVersion.update_concept_version l prev cid)[l.indexOf p]? = some cid ∧
      ∀ j, j ≠ l.indexOf p →
        (SourceVersion.update_concept_version l prev cid)[j]? = l[j]?) ∧
    ((∀ p, prev = some p → p ∉ l) →
      SourceVersion.update_concept_version l prev cid = l ++ [cid]) := by
  constructor
  · rintro p rfl hp
    unfold SourceVersion.update_concept_version
    simp only [if_pos hp]
    refine ⟨List.length_set l _ cid, ?_, ?_⟩
    · exact List.getElem?_set_self (List.indexOf_lt_length.mpr hp)
    · intro j hj
      exact List.getElem?_set_ne (Ne.symm hj)
  · intro h
    match prev with
    | none => rfl
    | some p =>
      have hp := h p rfl
      simp [SourceVersion.update_concept_version, hp]

/-- Witness for C4 at concrete inputs: replacing 5 by 9 in [5, 6], and
appending when the previous id 7 is absent. -/
theorem update_concept_version_replace_or_append_witness :
    (SourceVersion.update_concept_version [5, 6] (some 5) 9).length = 2 ∧
    (SourceVersion.update_concept_version [5, 6] (some 5) 9)[0]? = some 9 ∧
    (SourceVersion.update_concept_version [5, 6] (some 5) 9)[1]? = some 6 ∧
    SourceVersion.update_concept_version [5, 6] (some 7) 9 = [5, 6, 9] := by
  have h := update_concept_version_replace_or_append [5, 6] (some 5) 9
  obtain ⟨hlen, hset, hother⟩ := h.1 5 rfl (by decide)
  have hidx : [5, 6].indexOf 5 = 0 := by decide
  have h2 := (update_concept_version_replace_or_append [5, 6] (some 7) 9).2
  exact ⟨hlen, by rw [hidx] at hset; exact hset,
         by have := hother 1 (by rw [hidx]; decide); simpa using this,
         h2 (by intro p hp; cases hp; decide)⟩

/-- C10: `update_concept_version` decides between replace and append only
by the previous-version id, never the new id itself: when the previous
version is null (or its id absent), it appends unconditionally, so the same
first version applied twice leaves the new id in the list twice. -/
theorem update_concept_version_appends_blindly (l : List Nat) (cid : Nat) :
    (∀ prev : Option Nat, (∀ p, prev = some p → p ∉ l) →
      SourceVersion.update_concept_version l prev cid = l ++ [cid]) ∧
    SourceVersion.update_concept_version l none cid = l ++ [cid] ∧
    (SourceVersion.update_concept_version
        (SourceVersion.update_concept_version l none cid) none cid).count cid
      = l.count cid + 2 := by
  refine ⟨fun prev h => (update_concept_version_replace_or_append l prev cid).2 h,
          rfl, ?_⟩
  show ((l ++ [cid]) ++ [cid]).count cid = l.count cid + 2
  simp [List.count_append]

/-- Witness for C10 at concrete inputs: the id 7 is already present, and
each call appends it again. -/
theorem update_concept_version_appends_blindly_witness :
    SourceVersion.update_concept_version [7] (some 3) 7 = [7, 7] ∧
    SourceVersion.update_concept_version [7] none 7 = [7, 7] ∧
    (SourceVersion.update_concept_version
        (SourceVersion.update_concept_version [7] none 7) none 7).count 7 = 3 := by
  have h := update_concept_version_appends_blindly [7] 7
  exact ⟨h.1 (some 3) (by intro p hp; cases hp; decide), h.2.1,
         by rw [h.2.2]; decide⟩

/-- C9: the display name/locale pair comes from the first entry flagged
preferred-in-locale if any exists, else from the first entry in list order,
and is absent (not an error) for the empty list. -/
theorem display_resolution (names : List LocalizedText) :
    (names = [] →
      Concept.display_name names = none ∧ Concept.display_locale names = none) ∧
    (∀ i, (hi : i < names.length) → names[i].locale_preferred = true →
      (∀ x ∈ names.take i, x.locale_preferred = false) →
      Concept.display_name names = some names[i].name ∧
      Concept.display_locale names = some names[i].locale) ∧
    ((∀ x ∈ names, x.locale_preferred = false) →
      ∀ lt, names.head? = some lt →
        Concept.display_name names = some lt.name ∧
        Concept.display_locale names = some lt.locale) := by
  refine ⟨?_, ?_, ?_⟩
  · rintro rfl
    exact ⟨rfl, rfl⟩
  · intro i hi hp hfirst
    have hf := find?_of_first (·.locale_preferred) names i hi hp hfirst
    have hd : Concept.display names = some names[i] := by
      unfold Concept.display
      rw [hf]
    exact ⟨by rw [Concept.display_name, hd]; rfl,
           by rw [Concept.display_locale, hd]; rfl⟩
  · intro h lt hlt
    have hf : names.find? (·.locale_preferred) = none :=
      List.find?_eq_none.mpr (fun x hx => by simp [h x hx])
    have hd : Concept.display names = some lt := by
      unfold Concept.display
      rw [hf, hlt]
    exact ⟨by rw [Concept.display_name, hd]; rfl,
           by rw [Concept.display_locale, hd]; rfl⟩

/-- Witness for C9 at the spec's concrete examples:
`[("A","en",false), ("B","fr",true)]` displays as ("B","fr"); the empty
list displays nothing; `[("A","en",false)]` displays as ("A","en"). -/
theorem display_resolution_witness :
    Concept.display_name exNames = some "B" ∧
    Concept.display_locale exNames = some "fr" ∧
    Concept.display_name [] = none ∧ Concept.display_locale [] = none ∧
    Concept.display_name [{ name := "A", locale := "en", locale_preferred := false }]
      = some "A" := by
  have h := (display_resolution exNames).2.1 1 (by decide) (by decide) (by decide)
  have h0 := (display_resolution []).1 rfl
  have h1 := (display_resolution
      [{ name := "A", locale := "en", locale_preferred := false }]).2.2
    (by decide) { name := "A", locale := "en", locale_preferred := false } rfl
  exact ⟨h.1, h.2, h0.1, h0.2, h1.1⟩

/-- C2: for plain versioned resources `get_latest_version_of` returns the
most-recently-created version with `is_active = true`; for container
resources it returns the most-recently-created version with
`released = true`, regardless of later unreleased versions (and it returns
a version whenever one qualifies). -/
theorem get_latest_version_of_spec (db : DB) (oid : Nat) :
    (∀ r, ResourceVersionModel.get_latest_version_of db oid = some r →
      r ∈ db.versions ∧ r.versioned_object_id = oid ∧ r.is_active = true ∧
      ∀ w ∈ db.versions, w.versioned_object_id = oid → w.is_active = true →
        w.created_at ≤ r.created_at) ∧
    ((∃ v ∈ db.versions, v.versioned_object_id = oid ∧ v.is_active = true) →
      (ResourceVersionModel.get_latest_version_of db oid).isSome) ∧
    (∀ r, ConceptContainerVersionModel.get_latest_version_of db oid = some r →
      r ∈ db.versions ∧ r.versioned_object_id = oid ∧ r.released = true ∧
      ∀ w ∈ db.versions, w.versioned_object_id = oid → w.released = true →
        w.created_at ≤ r.created_at) ∧
    ((∃ v ∈ db.versions, v.versioned_object_id = oid ∧ v.released = true) →
      (ConceptContainerVersionModel.get_latest_version_of db oid).isSome) := by
  refine ⟨?_, ?_, ?_, ?_⟩
  · intro r hr
    obtain ⟨hmem, hmax⟩ := latestBy_spec _ _ _ hr
    obtain ⟨hr1, hr2⟩ := List.mem_filter.1 hmem
    simp only [Bool.and_eq_true, beq_iff_eq] at hr2
    refine ⟨hr1, hr2.1, hr2.2, ?_⟩
    intro w hw hw1 hw2
    exact hmax w (List.mem_filter.2 ⟨hw, by simp [hw1, hw2]⟩)
  · rintro ⟨v, hv, hv1, hv2⟩
    exact latestBy_isSome _ _
      (List.ne_nil_of_mem (List.mem_filter.2 ⟨hv, by simp [hv1, hv2]⟩))
  · intro r hr
    obtain ⟨hmem, hmax⟩ := latestBy_spec _ _ _ hr
    obtain ⟨hr1, hr2⟩ := List.mem_filter.1 hmem
    simp only [Bool.and_eq_true, beq_iff_eq] at hr2
    refine ⟨hr1, hr2.1, hr2.2, ?_⟩
    intro w hw hw1 hw2
    exact hmax w (List.mem_filter.2 ⟨hw, by simp [hw1, hw2]⟩)
  · rintro ⟨v, hv, hv1, hv2⟩
    exact latestBy_isSome _ _
      (List.ne_nil_of_mem (List.mem_filter.2 ⟨hv, by simp [hv1, hv2]⟩))

/-- Witness for C2 at a concrete store: object 1 has a released version at
time 1 and a later unreleased active version at time 2; the plain latest is
the later one, the container latest is still the released one. -/
theorem get_latest_version_of_spec_witness :
    exVer 11 "v2" 1 false true 2 [] ∈ exDB2.versions ∧
    (exVer 11 "v2" 1 false true 2 []).is_active = true ∧
    (exVer 10 "v1" 1 true true 1 []).created_at ≤
      (exVer 11 "v2" 1 false true 2 []).created_at ∧
    (exVer 10 "v1" 1 true true 1 []).released = true ∧
    (ConceptContainerVersionModel.get_latest_version_of exDB2 1).isSome := by
  have h := get_latest_version_of_spec exDB2 1
  obtain ⟨hmem, _, hact, hmax⟩ := h.1 (exVer 11 "v2" 1 false true 2 []) (by decide)
  obtain ⟨_, _, hrel, _⟩ := h.2.2.1 (exVer 10 "v1" 1 true true 1 []) (by decide)
  refine ⟨hmem, hact, ?_, hrel, ?_⟩
  · exact hmax (exVer 10 "v1" 1 true true 1 []) (by decide) (by decide) (by decide)
  · exact h.2.2.2 ⟨exVer 10 "v1" 1 true true 1 [], by decide, by decide, by decide⟩

/-- C1: `persist_new` is atomic on every failure path: a missing owner or
parent yields exactly the corresponding field-error keys and leaves both
collections untouched; a failure anywhere in the save sequence rolls back
the partially-created version and the resource, reporting
`non_field_errors`, so both collections are again untouched. -/
theorem persist_new_atomic (clean : SourceR → Errors)
    (f1 f2 f3 : Bool) (obj : SourceR) (owner parent : Option Nat)
    (db : DB) (errs : Errors) (db' : DB) (hwf : db.WF)
    (hres : ConceptContainerModel.persist_new clean f1 f2 f3 obj owner parent db
      = (errs, db')) :
    ((owner = none ∨ parent = none) →
      db'.sources = db.sources ∧ db'.versions = db.versions ∧
      errKeys errs =
        (if parent.isNone then ["parent"] else []) ++
        (if owner.isNone then ["owner"] else [])) ∧
    (∀ o p, owner = some o → parent = some p →
      clean { obj with parent := parent, owner := owner } = [] →
      (f1 = true ∨ f2 = true ∨ f3 = true) →
      db'.sources = db.sources ∧ db'.versions = db.versions ∧
      "non_field_errors" ∈ errKeys errs) := by
  obtain ⟨hids, hsrc, hnodup, hnodups⟩ := hwf
  constructor
  · intro hmiss
    rcases owner with _ | o
    · rcases parent with _ | p
      · rw [show ConceptContainerModel.persist_new clean f1 f2 f3 obj
            none none db
            = ([("parent", "Source parent cannot be None."),
                ("owner", "Source owner cannot be None.")], db) from rfl] at hres
        injection hres with h1 h2
        subst h1; subst h2
        simp [errKeys]
      · rw [show ConceptContainerModel.persist_new clean f1 f2 f3 obj
            none (some p) db
            = ([("owner", "Source owner cannot be None.")], db) from rfl] at hres
        injection hres with h1 h2
        subst h1; subst h2
        simp [errKeys]
    · rcases parent with _ | p
      · rw [show ConceptContainerModel.persist_new clean f1 f2 f3 obj
            (some o) none db
            = ([("parent", "Source parent cannot be None.")], db) from rfl] at hres
        injection hres with h1 h2
        subst h1; subst h2
        simp [errKeys]
      · rcases hmiss with h | h <;> cases h
  · rintro o p rfl rfl hclean hfail
    simp [ConceptContainerModel.persist_new, hclean] at hres
    -- now the failure cases
    rcases hfail with rfl | rfl | rfl
    · simp only [if_true, Prod.mk.injEq] at hres
      obtain ⟨he, hdb⟩ := hres
      subst he; subst hdb
      simp [errKeys]
    · cases f1
      · simp only [Bool.false_eq_true, if_false, if_true, DB.saveNewSource,
          DB.deleteSource, Prod.mk.injEq] at hres
        obtain ⟨he, hdb⟩ := hres
        subst he; subst hdb
        refine ⟨?_, rfl, by simp [errKeys]⟩
        exact filter_append_fresh _ _ _
          (fun y hy => by simpa using Nat.ne_of_lt (hsrc y hy))
          (by simp)
      · simp only [if_true, Prod.mk.injEq] at hres
        obtain ⟨he, hdb⟩ := hres
        subst he; subst hdb
        simp [errKeys]
    · cases f1
      · cases f2
        · simp only [Bool.false_eq_true, if_false, if_true, DB.saveNewSource,
            DB.saveNewVersion, DB.deleteVersion, DB.deleteSource,
            Prod.mk.injEq] at hres
          obtain ⟨he, hdb⟩ := hres
          subst he; subst hdb
          refine ⟨?_, ?_, by simp [errKeys]⟩
          · exact filter_append_fresh _ _ _
              (fun y hy => by simpa using Nat.ne_of_lt (hsrc y hy))
              (by simp)
          · exact filter_append_fresh _ _ _
              (fun y hy => by
                simpa using Nat.ne_of_lt (Nat.lt_succ_of_lt (hids y hy).1))
              (by simp)
        · simp only [Bool.false_eq_true, if_false, if_true, DB.saveNewSource,
            DB.deleteSource, Prod.mk.injEq] at hres
          obtain ⟨he, hdb⟩ := hres
          subst he; subst hdb
          refine ⟨?_, rfl, by simp [errKeys]⟩
          exact filter_append_fresh _ _ _
            (fun y hy => by simpa using Nat.ne_of_lt (hsrc y hy))
            (by simp)
      · simp only [if_true, Prod.mk.injEq] at hres
        obtain ⟨he, hdb⟩ := hres
        subst he; subst hdb
        simp [errKeys]

/-- Witness for C1 at concrete inputs: a missing owner on the empty store,
and a failing second version-save with both arguments supplied. -/
theorem persist_new_atomic_witness :
    ((ConceptContainerModel.persist_new (fun _ => []) false false false
        exSrc none (some 2) exDB0).2.sources = exDB0.sources ∧
      (ConceptContainerModel.persist_new (fun _ => []) false false false
        exSrc none (some 2) exDB0).2.versions = exDB0.versions ∧
      errKeys (ConceptContainerModel.persist_new (fun _ => []) false false false
        exSrc none (some 2) exDB0).1 = ["owner"]) ∧
    ((ConceptContainerModel.persist_new (fun _ => []) false false true
        exSrc (some 1) (some 2) exDB0).2.sources = exDB0.sources ∧
      (ConceptContainerModel.persist_new (fun _ => []) false false true
        exSrc (some 1) (some 2) exDB0).2.versions = exDB0.versions ∧
      "non_field_errors" ∈ errKeys (ConceptContainerModel.persist_new
        (fun _ => []) false false true exSrc (some 1) (some 2) exDB0).1) := by
  constructor
  · have h := (persist_new_atomic (fun _ => []) false false false exSrc
      none (some 2) exDB0 _ _ (by decide) rfl).1 (Or.inl rfl)
    exact ⟨h.1, h.2.1, by simpa using h.2.2⟩
  · exact (persist_new_atomic (fun _ => []) false false true exSrc
      (some 1) (some 2) exDB0 _ _ (by decide) rfl).2 1 2 rfl rfl rfl
      (Or.inr (Or.inr rfl))

/-- C6: a successful `persist_new` creates exactly one initial version
record, snapshotting the resource field values at save time, released, and
with its mnemonic equal to its own generated storage id (not the
provisional INITIAL label). -/
theorem persist_new_initial_version (clean : SourceR → Errors)
    (obj : SourceR) (o p : Nat) (db : DB) (errs : Errors) (db' : DB)
    (hwf : db.WF)
    (hclean : clean { obj with parent := some p, owner := some o } = [])
    (hres : ConceptContainerModel.persist_new clean false false false obj
      (some o) (some p) db = (errs, db')) :
    errs = [] ∧
    ∃ v, db'.versions = db.versions ++ [v] ∧
      v.released = true ∧ v.mnemonic = toString v.id ∧
      v.id = db.nextId + 1 ∧ v.versioned_object_id = db.nextId ∧
      v.name = obj.name ∧ v.full_name = obj.full_name ∧
      v.source_type = obj.source_type ∧ v.public_access = obj.public_access ∧
      v.default_locale = obj.default_locale ∧
      v.supported_locales = obj.supported_locales ∧
      v.website = obj.website ∧ v.description = obj.description := by
  obtain ⟨hids, hsrc, hnodup, hnodups⟩ := hwf
  simp [ConceptContainerModel.persist_new, hclean, DB.saveNewSource,
    DB.saveNewVersion, DB.saveExistingVersion] at hres
  obtain ⟨he, hdb⟩ := hres
  subst he; subst hdb
  refine ⟨rfl,
    { SourceVersion.for_base_object
        { obj with parent := some p, owner := some o, id := db.nextId }
        "INITIAL"
      with released := true, id := db.nextId + 1,
           created_at := db.clock + 1,
           mnemonic := toString (db.nextId + 1) },
    ?_, rfl, rfl, rfl, rfl, rfl, rfl, rfl, rfl, rfl, rfl, rfl, rfl⟩
  simp only [List.map_append, List.map_cons, List.map_nil]
  congr 1
  apply map_eq_self_of
  intro x hx
  have hne : x.id ≠ db.nextId + 1 :=
    Nat.ne_of_lt (Nat.lt_succ_of_lt (hids x hx).1)
  simp [SourceVersion.for_base_object, hne]

/-- Witness for C6: persisting a concrete source into the empty store. -/
theorem persist_new_initial_version_witness :
    (ConceptContainerModel.persist_new (fun _ => []) false false false
      exSrc (some 1) (some 2) exDB0).1 = [] ∧
    (ConceptContainerModel.persist_new (fun _ => []) false false false
      exSrc (some 1) (some 2) exDB0).2.versions.length
      = exDB0.versions.length + 1 := by
  obtain ⟨he, v, hv, -⟩ := persist_new_initial_version (fun _ => [])
    exSrc 1 2 exDB0 _ _ (by decide) rfl rfl
  refine ⟨he, ?_⟩
  have hlen := congrArg List.length hv
  simpa using hlen

/-- C5: with seeding requested, `seed_concepts` copies the member-id list
from `previous_version` if present, else from `parent_version`, else leaves
it empty; the copy is independent, so mutating (saving) one version's
record leaves any other version's stored record unchanged, in both
directions. -/
theorem seed_concepts_copy (db : DB) (obj : SourceVersionR) :
    (∀ pid a, obj.previous_version = some pid →
      db.versions.find? (fun v => v.id == pid) = some a →
      (SourceVersion.seed_concepts db obj).concepts = a.concepts) ∧
    (∀ pid a, obj.previous_version = none → obj.parent_version = some pid →
      db.versions.find? (fun v => v.id == pid) = some a →
      (SourceVersion.seed_concepts db obj).concepts = a.concepts) ∧
    (obj.previous_version = none → obj.parent_version = none →
      obj.concepts = [] → (SourceVersion.seed_concepts db obj).concepts = []) ∧
    (∀ (v a : SourceVersionR), a ∈ db.versions → v.id ≠ a.id →
      a ∈ (db.saveExistingVersion v).versions) := by
  refine ⟨?_, ?_, ?_, ?_⟩
  · intro pid a h1 h2
    simp [SourceVersion.seed_concepts, h1, h2]
  · intro pid a h1 h1' h2
    simp [SourceVersion.seed_concepts, h1, h1', h2]
  · intro h1 h1' hc
    simp [SourceVersion.seed_concepts, h1, h1', hc]
  · intro v a ha hne
    have hbeq : (a.id == v.id) = false :=
      beq_eq_false_iff_ne.mpr (fun h => hne h.symm)
    have hmem : a ∈ db.versions.map (fun w => if w.id == v.id then v else w) :=
      List.mem_map.2 ⟨a, ha, by simp [hbeq]⟩
    exact hmem

/-- Witness for C5: seeding `exObj5` from `exDB5` copies [5, 6]; saving a
mutated copy of version 3 leaves version 1's record untouched. -/
theorem seed_concepts_copy_witness :
    (SourceVersion.seed_concepts exDB5 exObj5).concepts = [5, 6] ∧
    exVer 1 "a" 1 false true 1 [5, 6] ∈
      (exDB5.saveExistingVersion (exVer 2 "b" 1 false true 2 [9])).versions := by
  have h := seed_concepts_copy exDB5 exObj5
  refine ⟨?_, ?_⟩
  · have := h.1 1 (exVer 1 "a" 1 false true 1 [5, 6]) (by decide) (by decide)
    simpa using this
  · exact h.2.2.2 (exVer 2 "b" 1 false true 2 [9])
      (exVer 1 "a" 1 false true 1 [5, 6]) (by decide) (by decide)

/-- C3: when `persist_changes` toggles `released` on, the unique prior
released version of the same versioned object ends up unreleased and the
new version released (never two released versions); if the save fails, the
prior version keeps `released = true` (the store is unchanged) and
`non_field_errors` is reported. -/
theorem persist_changes_release_swap (failSave : Bool)
    (obj pr : SourceVersionR) (db : DB) (vo : Nat)
    (hvo : obj.versioned_object_id = vo)
    (hrel : obj.released = true)
    (hone : db.versions.filter
        (fun v => v.versioned_object_id == vo && v.released) = [pr])
    (hfresh : ∀ w ∈ db.versions, w.id ≠ obj.id)
    (hnodup : (db.versions.map (·.id)).Nodup) :
    ∃ errs db',
      ConceptContainerVersionModel.persist_changes failSave
        { versioned_object := some vo, mnemonic := none, seed := false }
        { previous_version_mnemonic := none, parent_version_mnemonic := none,
          was_released := some false } obj db = some (errs, db') ∧
      (failSave = true →
        db'.versions = db.versions ∧ "non_field_errors" ∈ errKeys errs) ∧
      (failSave = false →
        errs = [] ∧
        db'.versions = db.versions.map
            (fun w => if w.id = pr.id then { pr with released := false } else w)
          ++ [{ obj with id := db.nextId, created_at := db.clock,
                         released := true }] ∧
        db'.versions.filter
            (fun v => v.versioned_object_id == vo && v.released)
          = [{ obj with id := db.nextId, created_at := db.clock,
                        released := true }]) := by
  subst hvo
  have hprmem : pr ∈ db.versions.filter
      (fun v => v.versioned_object_id == obj.versioned_object_id && v.released) := by
    rw [hone]; exact List.mem_cons_self _ _
  obtain ⟨hprm, hprp⟩ := List.mem_filter.1 hprmem
  have hprp' := hprp
  simp only [Bool.and_eq_true, beq_iff_eq] at hprp'
  obtain ⟨hprvo, hprrel⟩ := hprp'
  have huniq : ∀ x ∈ db.versions,
      (x.versioned_object_id == obj.versioned_object_id && x.released) = true →
      x = pr := by
    intro x hx hp
    have hxf : x ∈ db.versions.filter
        (fun v => v.versioned_object_id == obj.versioned_object_id && v.released) :=
      List.mem_filter.2 ⟨hx, hp⟩
    rw [hone] at hxf
    simpa using hxf
  have hprT : { pr with released := true } = pr := by
    rw [← hprrel]
  have hany : ¬ ∃ x ∈ db.versions,
      (if x.id = pr.id then { pr with released := false } else x).id = obj.id := by
    rintro ⟨x, hx, hcon⟩
    by_cases hxid : x.id = pr.id
    · rw [if_pos hxid] at hcon
      exact hfresh pr hprm hcon
    · rw [if_neg hxid] at hcon
      exact hfresh x hx hcon
  cases failSave with
  | true =>
    refine ⟨_, _,
      by simp [ConceptContainerVersionModel.persist_changes, hone, hrel,
           DB.saveExistingVersion]; exact ⟨rfl, rfl⟩, ?_, ?_⟩
    · intro _
      refine ⟨?_, by simp [errKeys]⟩
      apply map_eq_self_of
      intro x hx
      simp only [Function.comp_apply]
      by_cases hxid : x.id = pr.id
      · have hxpr : x = pr :=
          List.inj_on_of_nodup_map hnodup hx hprm hxid
        simp [hxid, hprT, hxpr]
      · simp [hxid]
    · intro h
      exact absurd h (by decide)
  | false =>
    refine ⟨_, _,
      by simp [ConceptContainerVersionModel.persist_changes, hone, hrel, hany,
           DB.saveExistingVersion, DB.saveVersion, DB.saveNewVersion];
         exact ⟨rfl, rfl⟩, ?_, ?_⟩
    · intro h
      exact absurd h (by decide)
    · intro _
      refine ⟨rfl, rfl, ?_⟩
      simp only [List.filter_append]
      have h1 : (db.versions.map
          (fun w => if w.id = pr.id then { pr with released := false } else w)).filter
          (fun v => v.versioned_object_id == obj.versioned_object_id && v.released)
          = [] := by
        rw [List.filter_eq_nil_iff]
        intro w hw
        obtain ⟨x, hx, rfl⟩ := List.mem_map.1 hw
        by_cases hxid : x.id = pr.id
        · simp [hxid]
        · simp only [if_neg hxid]
          intro hcon
          exact hxid (by rw [huniq x hx hcon])
      rw [h1]
      simp [hrel]

/-- Witness for C3: persisting the released version `exObj3` over `exDB3`
succeeds with no errors and leaves exactly the new version released. -/
theorem persist_changes_release_swap_witness :
    (ConceptContainerVersionModel.persist_changes false
        { versioned_object := some 1, mnemonic := none, seed := false }
        { previous_version_mnemonic := none, parent_version_mnemonic := none,
          was_released := some false } exObj3 exDB3).map
      (fun r => (r.1, r.2.versions.filter
        (fun v => v.versioned_object_id == 1 && v.released)))
    = some ([], [{ exObj3 with id := 20, created_at := 20,
                               released := true }]) := by
  obtain ⟨errs, db', heq, -, hf⟩ := persist_changes_release_swap false
    exObj3 exPr3 exDB3 1 rfl rfl (by decide) (by decide) (by decide)
  obtain ⟨he, hv, hfil⟩ := hf rfl
  rw [heq]
  simp only [Option.map_some']
  rw [he, hfil]
  rfl

/-- C7 (divergence): `persist_changes` checks the OLD mnemonic
(`obj.mnemonic` before reassignment) against the version table, not the
newly supplied one, so renaming an unsaved version of object 42 to "v2" —
a label an existing version of object 42 already carries — reports no
`mnemonic` error and writes a second version labelled "v2": afterwards two
stored versions of object 42 share the mnemonic "v2". -/
theorem persist_changes_mnemonic_check_divergence :
    (ConceptContainerVersionModel.persist_changes false
        { versioned_object := some 42, mnemonic := some "v2", seed := false }
        { previous_version_mnemonic := none, parent_version_mnemonic := none,
          was_released := none }
        (exVer 30 "v0" 42 false true 0 []) exDB7).map
      (fun r => (errKeys r.1,
        (r.2.versions.filter
          (fun v => v.versioned_object_id == 42 && v.mnemonic == "v2")).length))
    = some ([], 2) := by decide

/-- C8: `retire` on an already-retired resource returns failure and leaves
the store untouched; on an active resource it sets `retired`, appends
exactly one new version snapshot with `retired = true` (so the count grows
by one and every earlier version keeps its stored retired value), the new
latest version is retired, and it returns success. -/
theorem retire_spec (c : ConceptRec) (db : CDB) (hwf : db.WF) :
    (c.retired = true → Concept.retire c db = (false, c, db)) ∧
    (c.retired = false →
      (Concept.retire c db).1 = true ∧
      (Concept.retire c db).2.1.retired = true ∧
      (Concept.retire c db).2.2.versions
        = db.versions ++ [{ id := db.nextId, versioned_object_id := c.id,
                            retired := true, is_active := true,
                            created_at := db.clock }] ∧
      Concept.num_versions (Concept.retire c db).2.2 c
        = Concept.num_versions db c + 1 ∧
      (ConceptVersion.get_latest_version_of (Concept.retire c db).2.2 c.id).isSome ∧
      (∀ v, ConceptVersion.get_latest_version_of (Concept.retire c db).2.2 c.id
        = some v → v.retired = true)) := by
  constructor
  · intro h
    simp [Concept.retire, h]
  · intro h
    have hver : (Concept.retire c db).2.2.versions
        = db.versions ++ [{ id := db.nextId, versioned_object_id := c.id,
                            retired := true, is_active := true,
                            created_at := db.clock }] := by
      simp [Concept.retire, h]
    have hnewmem :
        ({ id := db.nextId, versioned_object_id := c.id, retired := true,
           is_active := true, created_at := db.clock } : ConceptVersionRec) ∈
        (Concept.retire c db).2.2.versions.filter
          (fun v => v.versioned_object_id == c.id && v.is_active) := by
      rw [hver]
      refine List.mem_filter.2 ⟨List.mem_append_right _ (List.mem_singleton.2 rfl), ?_⟩
      simp
    refine ⟨by simp [Concept.retire, h], by simp [Concept.retire, h], hver, ?_, ?_, ?_⟩
    · unfold Concept.num_versions
      rw [hver, List.filter_append]
      simp
    · exact latestBy_isSome _ _ (List.ne_nil_of_mem hnewmem)
    · intro v hv
      obtain ⟨hmem, hmax⟩ := latestBy_spec _ _ _ hv
      have hclk := hmax _ hnewmem
      obtain ⟨hvin, hvp⟩ := List.mem_filter.1 hmem
      rw [hver] at hvin
      rcases List.mem_append.1 hvin with hold | hnew
      · exact absurd hclk (by simpa using (hwf v hold).2)
      · rw [List.mem_singleton.1 hnew]

/-- Witness for C8 at a concrete store: retiring active concept 5 succeeds
and grows the version count from 1 to 2; retiring already-retired concept 6
fails and changes nothing. -/
theorem retire_spec_witness :
    (Concept.retire { id := 5, retired := false } exCDB8).1 = true ∧
    (Concept.retire { id := 5, retired := false } exCDB8).2.1.retired = true ∧
    Concept.num_versions (Concept.retire { id := 5, retired := false } exCDB8).2.2
      { id := 5, retired := false } = 2 ∧
    (ConceptVersion.get_latest_version_of
      (Concept.retire { id := 5, retired := false } exCDB8).2.2 5).isSome ∧
    Concept.retire { id := 6, retired := true } exCDB8
      = (false, { id := 6, retired := true }, exCDB8) := by
  have h := retire_spec { id := 5, retired := false } exCDB8 (by decide)
  obtain ⟨h1, h2, hver, hcount, hsome, -⟩ := h.2 rfl
  have h6 := (retire_spec { id := 6, retired := true } exCDB8 (by decide)).1 rfl
  exact ⟨h1, h2, by rw [hcount]; rfl, hsome, h6⟩

end OclApi
